import Mathlib

/-!
Shallow embedding of the ALITECS ADR plugin (src/v3/alitecs-adr/main.go).

Modelling conventions:
* Go `int` fields become `ℤ`.
* Go `float32` SNR / percentage quantities become `ℚ`; `int(x)` conversion of
  a float is truncation toward zero, modelled by `truncQ`.
* Go `uint32` frame counters become `ℕ`; the uint32 subtraction and the
  running `lostPackets` accumulator are taken modulo 2^32 = 4294967296
  explicitly, mirroring machine wrap-around.
* Go slices become `List`s; `for ... range` loops become folds / structural
  recursion in iteration order.
-/

/-- One uplink history record (fields of `adr.UplinkMetaData` used by the
algorithm): `FCnt` is a uint32 frame counter, `MaxSNR` the best SNR for the
uplink, `TXPowerIndex` the device TX-power index when the frame was sent. -/
structure UplinkMetaData where
  FCnt : ℕ
  MaxSNR : ℚ
  TXPowerIndex : ℤ
  deriving DecidableEq, Repr

/-- The ADR request (fields of `adr.HandleRequest` used by the algorithm). -/
structure HandleRequest where
  ADR : Bool
  DR : ℤ
  TxPowerIndex : ℤ
  NbTrans : ℤ
  MaxDR : ℤ
  MaxTxPowerIndex : ℤ
  RequiredSNRForDR : ℚ
  InstallationMargin : ℚ
  UplinkHistory : List UplinkMetaData
  deriving DecidableEq, Repr

/-- The ADR response (`adr.HandleResponse`). -/
structure HandleResponse where
  DR : ℤ
  TxPowerIndex : ℤ
  NbTrans : ℤ
  deriving DecidableEq, Repr

/-- Truncation toward zero of a rational, the semantics of Go's `int(x)`
conversion applied to the (here exactly computed) quotient. -/
def truncQ (q : ℚ) : ℤ :=
  q.num.tdiv q.den

/-- Go uint32 subtraction `a - b`: wrap-around modulo 2^32 = 4294967296,
i.e. `(a - b) mod 2^32`, written by cases on `b ≤ a` so that the borrow
case is the explicit wrap `2^32 - (b - a)`. -/
def u32sub (a b : ℕ) : ℕ :=
  if b % 4294967296 ≤ a % 4294967296 then a % 4294967296 - b % 4294967296
  else 4294967296 - (b % 4294967296 - a % 4294967296)

/-- `requiredHistoryCount` from main.go. -/
def requiredHistoryCount : ℕ := 20

/-- `pktLossRateTable` from main.go. -/
def pktLossRateTable : List (List ℤ) :=
  [[1, 1, 2], [1, 2, 3], [2, 3, 3], [3, 3, 3]]

/-- `getMaxSNR` from main.go: fold of the conditional update
`if m.MaxSNR > snrM` over the history, starting from the sentinel -999. -/
def getMaxSNR (req : HandleRequest) : ℚ :=
  req.UplinkHistory.foldl (fun snrM m => if m.MaxSNR > snrM then m.MaxSNR else snrM) (-999)

/-- `getHistoryCount` from main.go: number of history entries whose recorded
TX-power index equals the request's current TX-power index. -/
def getHistoryCount (req : HandleRequest) : ℕ :=
  req.UplinkHistory.foldl
    (fun count uh => if req.TxPowerIndex = uh.TXPowerIndex then count + 1 else count) 0

/-- The accumulation loop of `getPacketLossPercentage`: `lost` is the running
uint32 `lostPackets`, `prev` the previous frame counter; each step adds
`fc - prev - 1` in uint32 arithmetic. -/
def lostPacketsLoop : ℕ → ℕ → List ℕ → ℕ
  | lost, _, [] => lost
  | lost, prev, fc :: rest =>
      lostPacketsLoop ((lost + u32sub (u32sub fc prev) 1) % 4294967296) fc rest

/-- `getPacketLossPercentage` from main.go. -/
def getPacketLossPercentage (req : HandleRequest) : ℚ :=
  if req.UplinkHistory.length < requiredHistoryCount then 0
  else
    match req.UplinkHistory.map UplinkMetaData.FCnt with
    | [] => 0
    | fc :: rest =>
        ((lostPacketsLoop 0 fc rest : ℕ) : ℚ) / (req.UplinkHistory.length : ℚ) * 100

/-- `getNbTrans` from main.go: clamp the current NbTrans into [1,3], pick the
table row by packet-loss band, and index the row by the clamped count. -/
def getNbTrans (currentNbTrans : ℤ) (pktLossRate : ℚ) : ℤ :=
  let currentNbTrans := if currentNbTrans < 1 then 1 else currentNbTrans
  let currentNbTrans := if currentNbTrans > 3 then 3 else currentNbTrans
  if pktLossRate < 5 then (pktLossRateTable.getD 0 []).getD (currentNbTrans - 1).toNat 0
  else if pktLossRate < 10 then (pktLossRateTable.getD 1 []).getD (currentNbTrans - 1).toNat 0
  else if pktLossRate < 30 then (pktLossRateTable.getD 2 []).getD (currentNbTrans - 1).toNat 0
  else (pktLossRateTable.getD 3 []).getD (currentNbTrans - 1).toNat 0

/-- The SNR margin computed inline in `Handle`:
`snrM - req.RequiredSNRForDR - req.InstallationMargin`. -/
def snrMarginOf (req : HandleRequest) : ℚ :=
  getMaxSNR req - req.RequiredSNRForDR - req.InstallationMargin

/-- The step count computed inline in `Handle`: `nStep := int(snrMargin / 3)`. -/
def nStepOf (req : HandleRequest) : ℤ :=
  truncQ (snrMarginOf req / 3)

/-- `getIdealTxPowerIndexAndDR` from main.go: recursive step application,
one unit of `nStep` consumed per call, returning (txPowerIndex, dr). -/
def getIdealTxPowerIndexAndDR (nStep txPowerIndex dr maxTxPowerIndex maxDR : ℤ) : ℤ × ℤ :=
  if nStep = 0 then (txPowerIndex, dr)
  else if nStep > 0 then
    if dr < maxDR then
      getIdealTxPowerIndexAndDR (nStep - 1) txPowerIndex (dr + 1) maxTxPowerIndex maxDR
    else if txPowerIndex < maxTxPowerIndex then
      getIdealTxPowerIndexAndDR (nStep - 1) (txPowerIndex + 1) dr maxTxPowerIndex maxDR
    else
      getIdealTxPowerIndexAndDR (nStep - 1) txPowerIndex dr maxTxPowerIndex maxDR
  else
    if txPowerIndex > 0 then
      getIdealTxPowerIndexAndDR (nStep + 1) (txPowerIndex - 1) dr maxTxPowerIndex maxDR
    else if txPowerIndex = 0 then
      if dr > 0 then
        getIdealTxPowerIndexAndDR (nStep + 1) txPowerIndex (dr - 1) maxTxPowerIndex maxDR
      else
        getIdealTxPowerIndexAndDR (nStep + 1) txPowerIndex dr maxTxPowerIndex maxDR
    else
      getIdealTxPowerIndexAndDR (nStep + 1) txPowerIndex dr maxTxPowerIndex maxDR
  termination_by nStep.natAbs
  decreasing_by all_goals omega

/-- `Handle` from main.go (the returned error is always nil and omitted). -/
def Handle (req : HandleRequest) : HandleResponse :=
  let resp : HandleResponse :=
    { DR := req.DR, TxPowerIndex := req.TxPowerIndex, NbTrans := req.NbTrans }
  if !req.ADR then resp
  else
    let resp := if req.DR > req.MaxDR then { resp with DR := req.MaxDR } else resp
    let resp := { resp with NbTrans := getNbTrans req.NbTrans (getPacketLossPercentage req) }
    let nStep := nStepOf req
    if nStep < 0 ∧ getHistoryCount req ≠ requiredHistoryCount then resp
    else
      let p := getIdealTxPowerIndexAndDR nStep resp.TxPowerIndex resp.DR req.MaxTxPowerIndex req.MaxDR
      { resp with TxPowerIndex := p.1, DR := p.2 }

/-- Fuel-indexed variant of `getIdealTxPowerIndexAndDR`: `fuel` bounds the
number of recursive iterations still allowed; `none` means the bound was hit
before the terminal `nStep = 0` case.  Used to express the termination bound
of the source recursion (at most one iteration per unit of `nStep.natAbs`). -/
def getIdealFuel : ℕ → ℤ → ℤ → ℤ → ℤ → ℤ → Option (ℤ × ℤ)
  | fuel, nStep, txPowerIndex, dr, maxTxPowerIndex, maxDR =>
    if nStep = 0 then some (txPowerIndex, dr)
    else
      match fuel with
      | 0 => none
      | f + 1 =>
        if nStep > 0 then
          if dr < maxDR then
            getIdealFuel f (nStep - 1) txPowerIndex (dr + 1) maxTxPowerIndex maxDR
          else if txPowerIndex < maxTxPowerIndex then
            getIdealFuel f (nStep - 1) (txPowerIndex + 1) dr maxTxPowerIndex maxDR
          else
            getIdealFuel f (nStep - 1) txPowerIndex dr maxTxPowerIndex maxDR
        else
          if txPowerIndex > 0 then
            getIdealFuel f (nStep + 1) (txPowerIndex - 1) dr maxTxPowerIndex maxDR
          else if txPowerIndex = 0 then
            if dr > 0 then
              getIdealFuel f (nStep + 1) txPowerIndex (dr - 1) maxTxPowerIndex maxDR
            else
              getIdealFuel f (nStep + 1) txPowerIndex dr maxTxPowerIndex maxDR
          else
            getIdealFuel f (nStep + 1) txPowerIndex dr maxTxPowerIndex maxDR

/-!  Spec-side definitions, written from the specification's words, to be
compared with the source-side definitions above. -/

/-- The nbTrans selection as the specification words it: clamp the current
count into [1,3], map the loss percentage into one of the four bands,
and read the fixed 4x3 table. -/
def nbTransSpec (currentNbTrans : ℤ) (lossPct : ℚ) : ℤ :=
  let clamped := max 1 (min 3 currentNbTrans)
  let row : List ℤ :=
    if lossPct < 5 then [1, 1, 2]
    else if lossPct < 10 then [1, 2, 3]
    else if lossPct < 30 then [2, 3, 3]
    else [3, 3, 3]
  row.getD (clamped - 1).toNat 0

/-- The lost-frame total as the specification words it: walk the frame
counters pairwise, each consecutive pair contributing its counter delta
minus one (ℕ subtraction; under monotone counters the delta is ≥ 1). -/
def specLostFrom : ℕ → List ℕ → ℕ
  | _, [] => 0
  | prev, fc :: rest => (fc - prev - 1) + specLostFrom fc rest

/-- The maximum SNR as the specification words it: the maximum `MaxSNR`
across all history entries, or the sentinel -999 for an empty history. -/
def maxSNRspec (req : HandleRequest) : ℚ :=
  match req.UplinkHistory with
  | [] => -999
  | m :: rest => (rest.map UplinkMetaData.MaxSNR).foldl max m.MaxSNR

/-! Helper lemmas. -/

theorem truncQ_intCast (n : ℤ) : truncQ (n : ℚ) = n := by
  simp [truncQ]

theorem truncQ_nonpos {q : ℚ} (h : q ≤ 0) : truncQ q ≤ 0 := by
  have hnum : q.num ≤ 0 := Rat.num_nonpos.mpr h
  have hden : (0:ℤ) ≤ (q.den : ℤ) := by positivity
  have hnn : 0 ≤ (-q.num).tdiv q.den := Int.tdiv_nonneg (by omega) hden
  rw [Int.neg_tdiv] at hnn
  unfold truncQ
  omega

theorem getIdeal_dr_le (n tx dr mtx mdr : ℤ) (h : dr ≤ mdr) :
    (getIdealTxPowerIndexAndDR n tx dr mtx mdr).2 ≤ mdr := by
  rw [getIdealTxPowerIndexAndDR.eq_def]
  split_ifs <;> first | simpa using h | (apply getIdeal_dr_le; omega)
  termination_by n.natAbs
  decreasing_by all_goals omega

theorem getIdeal_tx_bounds (n tx dr mtx mdr : ℤ) (h0 : 0 ≤ tx) (h1 : tx ≤ mtx) :
    0 ≤ (getIdealTxPowerIndexAndDR n tx dr mtx mdr).1 ∧
      (getIdealTxPowerIndexAndDR n tx dr mtx mdr).1 ≤ mtx := by
  rw [getIdealTxPowerIndexAndDR.eq_def]
  split_ifs <;> first | exact ⟨h0, h1⟩ | (apply getIdeal_tx_bounds <;> omega)
  termination_by n.natAbs
  decreasing_by all_goals omega

theorem getIdealFuel_complete (fuel : ℕ) :
    ∀ (n tx dr mtx mdr : ℤ), n.natAbs ≤ fuel →
      getIdealFuel fuel n tx dr mtx mdr =
        some (getIdealTxPowerIndexAndDR n tx dr mtx mdr) := by
  induction fuel with
  | zero =>
    intro n tx dr mtx mdr h
    have hn : n = 0 := by omega
    subst hn
    rw [getIdealFuel, getIdealTxPowerIndexAndDR.eq_def]
    simp
  | succ f ih =>
    intro n tx dr mtx mdr h
    rw [getIdealFuel, getIdealTxPowerIndexAndDR.eq_def]
    split_ifs <;> first | rfl | (apply ih; omega)

/-! Claim theorems. -/

/-- C2 (confirmed): with adrEnabled = false, Handle returns the input
configuration verbatim (pure passthrough, no clamping or lookup applied). -/
theorem adr_disabled_passthrough (req : HandleRequest) (h : req.ADR = false) :
    Handle req = { DR := req.DR, TxPowerIndex := req.TxPowerIndex, NbTrans := req.NbTrans } := by
  simp [Handle, h]

def req2w : HandleRequest :=
  { ADR := false, DR := 7, TxPowerIndex := -2, NbTrans := 9, MaxDR := 5,
    MaxTxPowerIndex := 3, RequiredSNRForDR := 10, InstallationMargin := 5,
    UplinkHistory := [] }

/-- Witness for C2 at a concrete out-of-range request. -/
theorem adr_disabled_passthrough_witness :
    Handle req2w = { DR := 7, TxPowerIndex := -2, NbTrans := 9 } :=
  adr_disabled_passthrough req2w rfl

/-- C3 (confirmed): getNbTrans agrees everywhere with the spec's 4x3 table
read (clamp into [1,3], band the loss percentage, index the table row); in
particular currentNbTrans = 2 with loss 12 percent gives nbTrans = 3. -/
theorem nbTrans_table_exact :
    (∀ (c : ℤ) (p : ℚ), getNbTrans c p = nbTransSpec c p) ∧ getNbTrans 2 12 = 3 := by
  constructor
  · intro c p
    have hclamp :
        (if (if c < 1 then (1:ℤ) else c) > 3 then (3:ℤ) else if c < 1 then 1 else c) =
          max 1 (min 3 c) := by
      split_ifs <;> omega
    simp only [getNbTrans, nbTransSpec]
    rw [hclamp]
    split_ifs <;> rfl
  · decide

/-- C5 (confirmed): with ADR on, negative steps and a history count at the
current TX power different from 20, Handle returns the step-3 result:
clamped DR, table nbTrans, untouched TxPowerIndex. -/
theorem guard_returns_early (req : HandleRequest) (hadr : req.ADR = true)
    (hstep : nStepOf req < 0)
    (hcount : getHistoryCount req ≠ requiredHistoryCount) :
    Handle req =
      { DR := if req.DR > req.MaxDR then req.MaxDR else req.DR,
        TxPowerIndex := req.TxPowerIndex,
        NbTrans := getNbTrans req.NbTrans (getPacketLossPercentage req) } := by
  simp only [Handle, hadr, Bool.not_true, Bool.false_eq_true, if_false]
  rw [if_pos ⟨hstep, hcount⟩]
  split_ifs <;> rfl

def req5w : HandleRequest :=
  { ADR := true, DR := 10, TxPowerIndex := 7, NbTrans := 2, MaxDR := 5,
    MaxTxPowerIndex := 3, RequiredSNRForDR := 0, InstallationMargin := 0,
    UplinkHistory := [] }

/-- Witness for C5: empty history gives steps = -333 and history count 0. -/
theorem guard_returns_early_witness :
    Handle req5w = { DR := 5, TxPowerIndex := 7, NbTrans := 1 } := by
  have hstep : nStepOf req5w < 0 := by
    show truncQ (snrMarginOf req5w / 3) < 0
    have hm : snrMarginOf req5w = -999 := by
      simp [snrMarginOf, getMaxSNR, req5w]
    rw [hm]
    have h3 : (-999 : ℚ) / 3 = -333 := by norm_num
    rw [h3]
    decide
  rw [guard_returns_early req5w rfl hstep (by decide)]
  decide

/-- C6 (confirmed): the single-iteration behaviour of the step-application
recursion: positive steps raise DR below the cap, else raise the TX-power
index below its cap, else change nothing; negative steps lower a positive
TX-power index, else (at index 0) lower a positive DR, else change nothing;
plus the two concrete cases from the spec. -/
theorem step_application_shape :
    (∀ n txPowerIndex dr maxTxPowerIndex maxDR : ℤ, 0 < n →
      getIdealTxPowerIndexAndDR n txPowerIndex dr maxTxPowerIndex maxDR =
        getIdealTxPowerIndexAndDR (n - 1)
          (if dr < maxDR then txPowerIndex
           else if txPowerIndex < maxTxPowerIndex then txPowerIndex + 1 else txPowerIndex)
          (if dr < maxDR then dr + 1 else dr) maxTxPowerIndex maxDR) ∧
    (∀ n txPowerIndex dr maxTxPowerIndex maxDR : ℤ, n < 0 →
      getIdealTxPowerIndexAndDR n txPowerIndex dr maxTxPowerIndex maxDR =
        getIdealTxPowerIndexAndDR (n + 1)
          (if 0 < txPowerIndex then txPowerIndex - 1 else txPowerIndex)
          (if 0 < txPowerIndex then dr
           else if txPowerIndex = 0 ∧ 0 < dr then dr - 1 else dr) maxTxPowerIndex maxDR) ∧
    getIdealTxPowerIndexAndDR 2 1 3 3 5 = (1, 5) ∧
    (∀ dr maxTxPowerIndex maxDR : ℤ,
      getIdealTxPowerIndexAndDR (-1) 2 dr maxTxPowerIndex maxDR = (1, dr)) := by
  refine ⟨?_, ?_, ?_, ?_⟩
  · intro n tx dr mtx mdr h
    rw [getIdealTxPowerIndexAndDR.eq_def]
    split_ifs <;> first | rfl | omega
  · intro n tx dr mtx mdr h
    rw [getIdealTxPowerIndexAndDR.eq_def]
    split_ifs <;> first | rfl | omega
  · simp [getIdealTxPowerIndexAndDR]
  · intro dr mtx mdr
    simp [getIdealTxPowerIndexAndDR]

/-- Witness for C6: one positive iteration at concrete inputs. -/
theorem step_application_shape_witness :
    getIdealTxPowerIndexAndDR 1 0 0 0 1 = getIdealTxPowerIndexAndDR 0 0 1 0 1 :=
  step_application_shape.1 1 0 0 0 1 (by norm_num)

/-- C9 (confirmed): the step-application recursion terminates for every
input, within exactly nStep.natAbs iterations: the fuel-indexed variant with
that much fuel returns (some of) the total function's value. -/
theorem step_recursion_terminates (n txPowerIndex dr maxTxPowerIndex maxDR : ℤ) :
    getIdealFuel n.natAbs n txPowerIndex dr maxTxPowerIndex maxDR =
      some (getIdealTxPowerIndexAndDR n txPowerIndex dr maxTxPowerIndex maxDR) :=
  getIdealFuel_complete n.natAbs n txPowerIndex dr maxTxPowerIndex maxDR le_rfl

/-! C1: clamp ranges. -/

def cex1 : HandleRequest :=
  { ADR := false, DR := 10, TxPowerIndex := -1, NbTrans := 1, MaxDR := 5,
    MaxTxPowerIndex := 3, RequiredSNRForDR := 0, InstallationMargin := 0,
    UplinkHistory := [] }

/-- C1 counterexample: with adrEnabled = false and an out-of-range input
configuration, Handle passes the configuration through, so the result DR
exceeds MaxDR and the result TxPowerIndex is negative. -/
theorem clamp_range_counterexample :
    ¬ ((Handle cex1).DR ≤ cex1.MaxDR) ∧ ¬ (0 ≤ (Handle cex1).TxPowerIndex) := by
  decide

/-- C1 (amended): with adrEnabled = true the result DR never exceeds MaxDR;
and if the input TxPowerIndex lies in [0, MaxTxPowerIndex] then so does the
result TxPowerIndex. -/
theorem clamp_range_amended (req : HandleRequest) (hadr : req.ADR = true) :
    (Handle req).DR ≤ req.MaxDR ∧
      (0 ≤ req.TxPowerIndex → req.TxPowerIndex ≤ req.MaxTxPowerIndex →
        0 ≤ (Handle req).TxPowerIndex ∧ (Handle req).TxPowerIndex ≤ req.MaxTxPowerIndex) := by
  simp only [Handle, hadr, Bool.not_true, Bool.false_eq_true, if_false]
  split_ifs <;> dsimp only <;> constructor <;>
    first
      | (intro h0 h1; exact getIdeal_tx_bounds _ _ _ _ _ h0 h1)
      | (intro h0 h1; exact ⟨h0, h1⟩)
      | (apply getIdeal_dr_le; omega)
      | omega

def req1w : HandleRequest :=
  { ADR := true, DR := 3, TxPowerIndex := 1, NbTrans := 1, MaxDR := 5,
    MaxTxPowerIndex := 3, RequiredSNRForDR := 0, InstallationMargin := 0,
    UplinkHistory := [] }

/-- Witness for the amended C1 at a concrete in-range request. -/
theorem clamp_range_amended_witness :
    (Handle req1w).DR ≤ req1w.MaxDR ∧
      (0 ≤ (Handle req1w).TxPowerIndex ∧ (Handle req1w).TxPowerIndex ≤ req1w.MaxTxPowerIndex) :=
  ⟨(clamp_range_amended req1w rfl).1,
   (clamp_range_amended req1w rfl).2 (by decide) (by decide)⟩

/-! C8: nbTrans range. -/

theorem getNbTrans_cases (c : ℤ) (p : ℚ) :
    getNbTrans c p = 1 ∨ getNbTrans c p = 2 ∨ getNbTrans c p = 3 := by
  have hc :
      (if (if c < 1 then (1:ℤ) else c) > 3 then (3:ℤ) else if c < 1 then 1 else c) = 1 ∨
      (if (if c < 1 then (1:ℤ) else c) > 3 then (3:ℤ) else if c < 1 then 1 else c) = 2 ∨
      (if (if c < 1 then (1:ℤ) else c) > 3 then (3:ℤ) else if c < 1 then 1 else c) = 3 := by
    split_ifs <;> omega
  rcases hc with h | h | h <;> simp only [getNbTrans] <;> rw [h] <;> split_ifs <;> decide

def cex8 : HandleRequest :=
  { ADR := false, DR := 2, TxPowerIndex := 0, NbTrans := 0, MaxDR := 5,
    MaxTxPowerIndex := 3, RequiredSNRForDR := 0, InstallationMargin := 0,
    UplinkHistory := [] }

/-- C8 counterexample: with adrEnabled = false an out-of-range input
nbTrans (here 0) is passed through, so the result nbTrans is not in
the set \x7b1, 2, 3\x7d. -/
theorem nbTrans_range_counterexample :
    ¬ ((Handle cex8).NbTrans = 1 ∨ (Handle cex8).NbTrans = 2 ∨ (Handle cex8).NbTrans = 3) := by
  decide

/-- C8 (amended): with adrEnabled = true the result nbTrans is always
1, 2 or 3, even for out-of-range input currentNbTrans. -/
theorem nbTrans_range_amended (req : HandleRequest) (hadr : req.ADR = true) :
    (Handle req).NbTrans = 1 ∨ (Handle req).NbTrans = 2 ∨ (Handle req).NbTrans = 3 := by
  simp only [Handle, hadr, Bool.not_true, Bool.false_eq_true, if_false]
  split_ifs <;> exact getNbTrans_cases _ _

def req8w : HandleRequest :=
  { ADR := true, DR := 2, TxPowerIndex := 0, NbTrans := 7, MaxDR := 5,
    MaxTxPowerIndex := 3, RequiredSNRForDR := 0, InstallationMargin := 0,
    UplinkHistory := [] }

/-- Witness for the amended C8 at a concrete out-of-range nbTrans input. -/
theorem nbTrans_range_amended_witness :
    (Handle req8w).NbTrans = 1 ∨ (Handle req8w).NbTrans = 2 ∨ (Handle req8w).NbTrans = 3 :=
  nbTrans_range_amended req8w rfl

/-! C4: packet-loss percentage. -/

theorem lostPacketsLoop_no_wrap (fcs : List ℕ) :
    ∀ lost prev : ℕ, prev < 4294967296 → (∀ x ∈ fcs, x < 4294967296) →
      List.Chain (· < ·) prev fcs → lost ≤ prev →
      lostPacketsLoop lost prev fcs = lost + specLostFrom prev fcs := by
  induction fcs with
  | nil => intro lost prev _ _ _ _; rfl
  | cons fc rest ih =>
    intro lost prev hprev hall hchain hlost
    rw [List.chain_cons] at hchain
    obtain ⟨hlt, hchain2⟩ := hchain
    have hfc : fc < 4294967296 := hall fc (List.mem_cons_self _ _)
    have hstep : (lost + u32sub (u32sub fc prev) 1) % 4294967296 = lost + (fc - prev - 1) := by
      unfold u32sub
      split_ifs <;> omega
    simp only [lostPacketsLoop, specLostFrom]
    rw [hstep, ih _ _ hfc (fun x hx => hall x (List.mem_cons_of_mem _ hx)) hchain2 (by omega)]
    omega

/-- C4 (confirmed): with fewer than 20 history entries the loss percentage
is 0; with at least 20 entries, uint32-valued and strictly increasing frame
counters, it equals the pairwise sum of (delta - 1) divided by the history
length times 100. -/
theorem packet_loss_formula (req : HandleRequest) :
    (req.UplinkHistory.length < 20 → getPacketLossPercentage req = 0) ∧
    (∀ fc fcs, req.UplinkHistory.map UplinkMetaData.FCnt = fc :: fcs →
      20 ≤ req.UplinkHistory.length →
      List.Chain (· < ·) fc fcs →
      (∀ x ∈ fc :: fcs, x < 4294967296) →
      getPacketLossPercentage req =
        ((specLostFrom fc fcs : ℕ) : ℚ) / (req.UplinkHistory.length : ℚ) * 100) := by
  constructor
  · intro h
    unfold getPacketLossPercentage requiredHistoryCount
    rw [if_pos h]
  · intro fc fcs hmap hlen hchain hbound
    unfold getPacketLossPercentage requiredHistoryCount
    rw [if_neg (by omega), hmap]
    show ((lostPacketsLoop 0 fc fcs : ℕ) : ℚ) / (req.UplinkHistory.length : ℚ) * 100 = _
    rw [lostPacketsLoop_no_wrap fcs 0 fc (hbound fc (List.mem_cons_self _ _))
      (fun x hx => hbound x (List.mem_cons_of_mem _ hx)) hchain (Nat.zero_le _)]
    rw [Nat.zero_add]

def req4a : HandleRequest :=
  { ADR := true, DR := 2, TxPowerIndex := 0, NbTrans := 1, MaxDR := 5,
    MaxTxPowerIndex := 3, RequiredSNRForDR := 0, InstallationMargin := 0,
    UplinkHistory := [⟨100, 5, 0⟩] }

def req4b : HandleRequest :=
  { ADR := true, DR := 2, TxPowerIndex := 0, NbTrans := 1, MaxDR := 5,
    MaxTxPowerIndex := 3, RequiredSNRForDR := 0, InstallationMargin := 0,
    UplinkHistory :=
      [0, 1, 2, 3, 4, 5, 6, 7, 8, 9, 10, 11, 12, 13, 14, 15, 16, 17, 18, 20].map
        (fun n => ⟨n, 5, 0⟩) }

/-- Witness for C4: a one-entry history gives loss 0, and a 20-entry history
with one gap satisfies the pairwise formula. -/
theorem packet_loss_formula_witness :
    getPacketLossPercentage req4a = 0 ∧
    getPacketLossPercentage req4b =
      ((specLostFrom 0 [1, 2, 3, 4, 5, 6, 7, 8, 9, 10, 11, 12, 13, 14, 15, 16, 17, 18, 20] : ℕ) : ℚ) /
        (req4b.UplinkHistory.length : ℚ) * 100 :=
  ⟨(packet_loss_formula req4a).1 (by decide),
   (packet_loss_formula req4b).2 0 [1, 2, 3, 4, 5, 6, 7, 8, 9, 10, 11, 12, 13, 14, 15, 16, 17, 18, 20]
     rfl (by decide) (by norm_num [List.chain_cons]) (by decide)⟩

/-! C7: step-count formula and empty-history behaviour. -/

theorem foldl_max_init (l : List ℚ) (i : ℚ) :
    ∀ j : ℚ, l.foldl max (max i j) = max i (l.foldl max j) := by
  induction l with
  | nil => intro j; rfl
  | cons a t ih =>
    intro j
    simp only [List.foldl]
    rw [max_assoc]
    exact ih (max j a)

theorem le_foldl_max (l : List ℚ) : ∀ i : ℚ, i ≤ l.foldl max i := by
  induction l with
  | nil => intro i; exact le_refl i
  | cons a t ih =>
    intro i
    simp only [List.foldl]
    exact le_trans (le_max_left i a) (ih (max i a))

theorem mem_le_foldl_max (l : List ℚ) : ∀ (i x : ℚ), x ∈ l → x ≤ l.foldl max i := by
  induction l with
  | nil => intro i x hx; cases hx
  | cons a t ih =>
    intro i x hx
    simp only [List.foldl]
    rcases List.mem_cons.mp hx with rfl | h2
    · exact le_trans (le_max_right i x) (le_foldl_max t _)
    · exact ih _ _ h2

theorem getMaxSNR_eq_foldl (req : HandleRequest) :
    getMaxSNR req = (req.UplinkHistory.map UplinkMetaData.MaxSNR).foldl max (-999) := by
  unfold getMaxSNR
  rw [List.foldl_map]
  congr 1
  funext s m
  split_ifs with h
  · exact (max_eq_right h.le).symm
  · exact (max_eq_left (not_lt.mp h)).symm

theorem getMaxSNR_eq_spec (req : HandleRequest)
    (h : req.UplinkHistory = [] ∨ ∃ m ∈ req.UplinkHistory, (-999 : ℚ) ≤ m.MaxSNR) :
    getMaxSNR req = maxSNRspec req := by
  rcases hh : req.UplinkHistory with _ | ⟨m0, rest⟩
  · simp [getMaxSNR, maxSNRspec, hh]
  · have hspec : maxSNRspec req = (rest.map UplinkMetaData.MaxSNR).foldl max m0.MaxSNR := by
      simp [maxSNRspec, hh]
    rw [getMaxSNR_eq_foldl, hh, hspec]
    simp only [List.map, List.foldl]
    rw [foldl_max_init]
    apply max_eq_right
    rcases h with h | ⟨m, hm, hsnr⟩
    · rw [h] at hh
      cases hh
    · rw [hh] at hm
      rcases List.mem_cons.mp hm with rfl | hm2
      · exact le_trans hsnr (le_foldl_max _ _)
      · exact le_trans hsnr (mem_le_foldl_max _ _ _ (List.mem_map_of_mem _ hm2))

theorem getIdeal_nonpos_le (n tx dr mtx mdr : ℤ) (h : n ≤ 0) :
    (getIdealTxPowerIndexAndDR n tx dr mtx mdr).1 ≤ tx ∧
      (getIdealTxPowerIndexAndDR n tx dr mtx mdr).2 ≤ dr := by
  rw [getIdealTxPowerIndexAndDR.eq_def]
  split_ifs <;>
    first
      | exact ⟨le_refl _, le_refl _⟩
      | exact absurd h (by omega)
      | (obtain ⟨ha, hb⟩ := getIdeal_nonpos_le (n + 1) (tx - 1) dr mtx mdr (by omega)
         exact ⟨by omega, by omega⟩)
      | (obtain ⟨ha, hb⟩ := getIdeal_nonpos_le (n + 1) tx (dr - 1) mtx mdr (by omega)
         exact ⟨by omega, by omega⟩)
      | (obtain ⟨ha, hb⟩ := getIdeal_nonpos_le (n + 1) tx dr mtx mdr (by omega)
         exact ⟨ha, hb⟩)
  termination_by n.natAbs
  decreasing_by all_goals omega

theorem handle_no_upward (req : HandleRequest) (hstep : nStepOf req ≤ 0) :
    (Handle req).DR ≤ req.DR ∧ (Handle req).TxPowerIndex ≤ req.TxPowerIndex := by
  by_cases hadr : req.ADR = true
  · simp only [Handle, hadr, Bool.not_true, Bool.false_eq_true, if_false]
    split_ifs <;> dsimp only <;>
      first
        | (constructor <;> omega)
        | (obtain ⟨ha, hb⟩ := getIdeal_nonpos_le (nStepOf req) req.TxPowerIndex req.MaxDR
             req.MaxTxPowerIndex req.MaxDR hstep
           constructor <;> omega)
        | (obtain ⟨ha, hb⟩ := getIdeal_nonpos_le (nStepOf req) req.TxPowerIndex req.DR
             req.MaxTxPowerIndex req.MaxDR hstep
           constructor <;> omega)
  · have hfalse : req.ADR = false := by
      revert hadr
      cases req.ADR <;> simp
    simp [Handle, hfalse]

/-- C7 (amended): provided some history entry reaches the -999 sentinel (or
the history is empty), the step count equals the truncated-toward-zero third
of (max history SNR - required SNR - installation margin); and for an empty
history with requiredSNRForDR + installationMargin at least -999, the margin
and step count are non-positive and the result is never stepped upward. -/
theorem steps_formula_amended (req : HandleRequest)
    (hplaus : req.UplinkHistory = [] ∨ ∃ m ∈ req.UplinkHistory, (-999 : ℚ) ≤ m.MaxSNR) :
    nStepOf req =
      truncQ ((maxSNRspec req - req.RequiredSNRForDR - req.InstallationMargin) / 3) ∧
    (req.UplinkHistory = [] →
      (-999 : ℚ) ≤ req.RequiredSNRForDR + req.InstallationMargin →
      snrMarginOf req ≤ 0 ∧ nStepOf req ≤ 0 ∧
        (Handle req).DR ≤ req.DR ∧ (Handle req).TxPowerIndex ≤ req.TxPowerIndex) := by
  have hmax := getMaxSNR_eq_spec req hplaus
  constructor
  · unfold nStepOf snrMarginOf
    rw [hmax]
  · intro hempty hpl
    have hsnr : getMaxSNR req = -999 := by simp [getMaxSNR, hempty]
    have hmargin : snrMarginOf req ≤ 0 := by
      rw [snrMarginOf, hsnr]
      linarith
    have hstep : nStepOf req ≤ 0 := by
      rw [nStepOf]
      exact truncQ_nonpos (div_nonpos_of_nonpos_of_nonneg hmargin (by norm_num))
    obtain ⟨h1, h2⟩ := handle_no_upward req hstep
    exact ⟨hmargin, hstep, h1, h2⟩

def cex7 : HandleRequest :=
  { ADR := true, DR := 0, TxPowerIndex := 0, NbTrans := 1, MaxDR := 1,
    MaxTxPowerIndex := 0, RequiredSNRForDR := -3000, InstallationMargin := 0,
    UplinkHistory := [] }

/-- C7 counterexample: an empty history does not force a non-positive margin
when requiredSNRForDR is far below the sentinel: here the margin is +2001
and the step count +667, contradicting the claimed empty-history behaviour. -/
theorem steps_formula_counterexample :
    cex7.UplinkHistory = [] ∧ 0 < snrMarginOf cex7 ∧ 0 < nStepOf cex7 := by
  have hm : snrMarginOf cex7 = 2001 := by
    norm_num [snrMarginOf, getMaxSNR, cex7]
  refine ⟨rfl, by rw [hm]; norm_num, ?_⟩
  show 0 < truncQ (snrMarginOf cex7 / 3)
  rw [hm]
  have h3 : (2001 : ℚ) / 3 = 667 := by norm_num
  rw [h3]
  decide

def req7w : HandleRequest :=
  { ADR := true, DR := 4, TxPowerIndex := 2, NbTrans := 1, MaxDR := 5,
    MaxTxPowerIndex := 3, RequiredSNRForDR := 0, InstallationMargin := 0,
    UplinkHistory := [] }

/-- Witness for the amended C7 at a concrete empty-history request. -/
theorem steps_formula_amended_witness :
    snrMarginOf req7w ≤ 0 ∧ nStepOf req7w ≤ 0 ∧
      (Handle req7w).DR ≤ req7w.DR ∧ (Handle req7w).TxPowerIndex ≤ req7w.TxPowerIndex :=
  (steps_formula_amended req7w (Or.inl rfl)).2 rfl (by norm_num [req7w])

/-! C10: uint32 wrap-around in the lost-packet accumulation. -/

theorem getNbTrans_ge30 (c : ℤ) (p : ℚ) (hp : 30 ≤ p) : getNbTrans c p = 3 := by
  have h5 : ¬ p < 5 := by linarith
  have h10 : ¬ p < 10 := by linarith
  have h30 : ¬ p < 30 := by linarith
  have hc :
      (if (if c < 1 then (1:ℤ) else c) > 3 then (3:ℤ) else if c < 1 then 1 else c) = 1 ∨
      (if (if c < 1 then (1:ℤ) else c) > 3 then (3:ℤ) else if c < 1 then 1 else c) = 2 ∨
      (if (if c < 1 then (1:ℤ) else c) > 3 then (3:ℤ) else if c < 1 then 1 else c) = 3 := by
    split_ifs <;> omega
  rcases hc with h | h | h <;> simp only [getNbTrans] <;>
    rw [if_neg h5, if_neg h10, if_neg h30, h] <;> decide

def cex10 : HandleRequest :=
  { ADR := true, DR := 0, TxPowerIndex := 0, NbTrans := 1, MaxDR := 5,
    MaxTxPowerIndex := 3, RequiredSNRForDR := 0, InstallationMargin := 0,
    UplinkHistory :=
      [8, 0, 10, 11, 12, 13, 14, 15, 16, 17, 18, 19, 20, 21, 22, 23, 24, 25, 26, 27].map
        (fun n => ⟨n, 0, 0⟩) }

/-- C10 counterexample: a 20-entry history containing a non-increasing
consecutive pair (8 then 0) whose wrapped contribution is cancelled modulo
2^32 by a later gap, so the computed loss percentage is 0 (not enormous) and
the nbTrans lookup lands in the lowest band, not in the claimed always-3. -/
theorem u32_wrap_counterexample :
    (cex10.UplinkHistory.map UplinkMetaData.FCnt).take 2 = [8, 0] ∧
    cex10.UplinkHistory.length = 20 ∧
    getPacketLossPercentage cex10 = 0 ∧
    getNbTrans cex10.NbTrans (getPacketLossPercentage cex10) = 1 := by
  have hloss : getPacketLossPercentage cex10 = 0 := by
    unfold getPacketLossPercentage requiredHistoryCount
    rw [if_neg (by decide)]
    show ((lostPacketsLoop 0 8
        [0, 10, 11, 12, 13, 14, 15, 16, 17, 18, 19, 20, 21, 22, 23, 24, 25, 26, 27] : ℕ) : ℚ) /
        (cex10.UplinkHistory.length : ℚ) * 100 = 0
    have hc : lostPacketsLoop 0 8
        [0, 10, 11, 12, 13, 14, 15, 16, 17, 18, 19, 20, 21, 22, 23, 24, 25, 26, 27] = 0 := by
      decide
    rw [hc]
    norm_num
  refine ⟨rfl, rfl, hloss, ?_⟩
  rw [hloss]
  decide

def c10fcs : List ℕ :=
  [0, 0, 1, 2, 3, 4, 5, 6, 7, 8, 9, 10, 11, 12, 13, 14, 15, 16, 17, 18]

/-- C10 (amended): the accumulation is uint32 arithmetic modulo 2^32: a
non-increasing consecutive pair (delta <= 0) contributes (delta - 1) mod
2^32 lost frames, with a repeated counter contributing 2^32 - 1; when that
is the history's only irregularity (as in the 20-entry history with one
repeated counter) the loss percentage is enormous, lands in the >= 30 band
and yields nbTrans = 3 — though several irregular pairs can wrap the modular
total back to a small value. -/
theorem u32_wrap_amended :
    (∀ a b : ℕ, b ≤ a → a < 4294967296 → b < 4294967296 →
      u32sub (u32sub b a) 1 = 4294967296 - (a - b) - 1) ∧
    (∀ req : HandleRequest, req.UplinkHistory.map UplinkMetaData.FCnt = c10fcs →
      getPacketLossPercentage req = ((4294967295 : ℕ) : ℚ) / 20 * 100 ∧
      30 ≤ getPacketLossPercentage req ∧
      getNbTrans req.NbTrans (getPacketLossPercentage req) = 3) := by
  constructor
  · intro a b h1 h2 h3
    unfold u32sub
    split_ifs <;> omega
  · intro req hmap
    have hlen : req.UplinkHistory.length = 20 := by
      have h := congrArg List.length hmap
      simpa using h
    have hloss : getPacketLossPercentage req = ((4294967295 : ℕ) : ℚ) / 20 * 100 := by
      unfold getPacketLossPercentage requiredHistoryCount
      rw [if_neg (by omega), hmap]
      show ((lostPacketsLoop 0 0
          [0, 1, 2, 3, 4, 5, 6, 7, 8, 9, 10, 11, 12, 13, 14, 15, 16, 17, 18] : ℕ) : ℚ) /
          (req.UplinkHistory.length : ℚ) * 100 = _
      have hc : lostPacketsLoop 0 0
          [0, 1, 2, 3, 4, 5, 6, 7, 8, 9, 10, 11, 12, 13, 14, 15, 16, 17, 18] = 4294967295 := by
        decide
      rw [hc, hlen]
      norm_num
    refine ⟨hloss, ?_, ?_⟩
    · rw [hloss]
      norm_num
    · exact getNbTrans_ge30 _ _ (by rw [hloss]; norm_num)

def req10w : HandleRequest :=
  { ADR := true, DR := 0, TxPowerIndex := 0, NbTrans := 2, MaxDR := 5,
    MaxTxPowerIndex := 3, RequiredSNRForDR := 0, InstallationMargin := 0,
    UplinkHistory := c10fcs.map (fun n => ⟨n, 0, 0⟩) }

/-- Witness for the amended C10: a repeated counter contributes 2^32 - 1,
and the single-repeat 20-entry history yields the >= 30 band and nbTrans 3. -/
theorem u32_wrap_amended_witness :
    u32sub (u32sub 5 5) 1 = 4294967296 - (5 - 5) - 1 ∧
    getNbTrans req10w.NbTrans (getPacketLossPercentage req10w) = 3 :=
  ⟨u32_wrap_amended.1 5 5 (le_refl 5) (by decide) (by decide),
   (u32_wrap_amended.2 req10w (by decide)).2.2⟩
